import Mathlib

/-!
Verification development for the TOML parser state machine and tree builder
(`parser.go` plus the tree-builder file).  The parser consumes a pre-tokenized
stream and drives a builder whose operations mutate an in-memory tree.

The embedding below translates the source directly:
* the builder (`enterGroupArray`, `enterGroup`, `enterAssign`, `foundValue`,
  `enterArray`, `exitArray`, `enterInlineTable`) is taken from the tree-builder
  source file; the Go pointer `assignTree` is represented by the path from
  which the source resolves it (`assignPath`), and writes through that pointer
  become path-directed functional updates;
* the parser functions (`parseStart`, `parseGroup`, `parseGroupArray`,
  `parseAssign`, `parseRvalue`, `parseArray`, `parseInlineTable`) come from
  `parser.go`; explicit fuel replaces the Go state-machine loop (fuel is chosen
  large enough that it is never exhausted on the finite streams considered);
* Go panics raised through `raiseError` become `Except.error` values carrying a
  constructor per raise site; source positions are diagnostic-only (spec, §2/§3)
  and are elided;
* float, date, `inf` and `nan` literals are outside every claim considered here
  and their token kinds are omitted from the token alphabet;
* the Tree path utilities (`GetPath`, `SetPath`, `createSubTree`, `Set`) and
  `parseKey` live in repository files not present under `src/`; they are
  modelled from the specification and marked as such in their doc comments.
-/

namespace GoToml

/-- Token kinds of the lexer interface (spec §6), restricted to the kinds the
claims exercise; float/date/inf/nan literals are not needed by any claim. -/
inductive TokenType where
  | key
  | keyGroup
  | keyGroupArray
  | equal
  | leftBracket
  | rightBracket
  | doubleLeftBracket
  | doubleRightBracket
  | leftCurlyBrace
  | rightCurlyBrace
  | comma
  | tString
  | tTrue
  | tFalse
  | integer
  | eof
  | tokenError
  deriving DecidableEq, BEq, Repr

/-- A lexer token: kind plus literal text (positions are diagnostic-only and
elided). -/
structure Token where
  typ : TokenType
  val : String
  deriving Repr

/-- The runtime type tags `reflect.TypeOf` can produce for values flowing
through the builder (`string`, `bool`, `int64`, `*Tree`, `[]*Tree`,
`[]interface\x7b\x7d`). -/
inductive GoType where
  | tString
  | tBool
  | tInt64
  | tTreePtr
  | tTreeSlice
  | tIfaceSlice
  deriving DecidableEq, BEq, Repr

mutual
/-- A tree node: ordered mapping from key segment to stored entry
(`Tree.values` in the source). -/
inductive Tree where
  | mk : List (String × Node) → Tree

/-- An entry of `Tree.values`: a `*tomlValue` wrapper, a `*Tree`, or a
`[]*Tree`. -/
inductive Node where
  | value : GoValue → Node
  | table : Tree → Node
  | tableArray : List Tree → Node

/-- A dynamically-typed Go value (`interface\x7b\x7d`) as it flows through
`foundValue` and array accumulation. -/
inductive GoValue where
  | nilv : GoValue
  | str : String → GoValue
  | boolean : Bool → GoValue
  | int64 : Int → GoValue
  | tree : Tree → GoValue
  | treeList : List Tree → GoValue
  | arr : List GoValue → GoValue
end

/-- `reflect.TypeOf` on a dynamic value; `none` is the nil interface type. -/
def typeOf : GoValue → Option GoType
  | .nilv => none
  | .str _ => some .tString
  | .boolean _ => some .tBool
  | .int64 _ => some .tInt64
  | .tree _ => some .tTreePtr
  | .treeList _ => some .tTreeSlice
  | .arr _ => some .tIfaceSlice

/-- The `v.(*Tree)` type assertion used by `exitArray`; only applied when the
accumulated array's element type is `*Tree`, so the default is unreachable. -/
def asTree : GoValue → Tree
  | .tree t => t
  | _ => Tree.mk []

/-- One error constructor per `raiseError`/error-return site in the source. -/
inductive PErr where
  | outOfFuel
  | unexpectedToken
  | unexpectedEnd
  | wasExpecting (want : TokenType)
  | expectingValue
  | invalidKey
  | invalidUnderscore
  | invalidUnderscoreHex
  | invalidBase
  | intParseFailure
  | neverReached
  | multipleEquals
  | lexerError
  | duplicatedTables
  | unknownTableType
  | keyDefinedTwice (joined : String)
  | keyNotTableArray (key : String)
  | mixedTypes
  | unterminatedArray
  | missingComma
  | unterminatedInlineTable
  | commaExpectedInlineTable
  | leadingCommaInlineTable
  | doubleCommaInlineTable
  | trailingCommaInlineTable
  | unexpectedInlineTableToken
  deriving DecidableEq, Repr

/-- Lookup in a tree's ordered value list (Go map read `t.values[k]`). -/
def lookupV : List (String × Node) → String → Option Node
  | [], _ => none
  | (k', n) :: rest, k => if k' = k then some n else lookupV rest k

/-- Insert-or-replace in a tree's ordered value list (Go map write
`t.values[k] = n`). -/
def setValues : List (String × Node) → String → Node → List (String × Node)
  | [], k, n => [(k, n)]
  | (k', n') :: rest, k, n =>
      if k' = k then (k, n) :: rest else (k', n') :: setValues rest k n

/-- Result alphabet of the modelled `Tree.GetPath`: a sub-tree, a table array,
or an unwrapped `tomlValue` payload. -/
inductive GNode where
  | gTree : Tree → GNode
  | gTreeList : List Tree → GNode
  | gValue : GoValue → GNode

/-- Modelled from the spec: `Tree.GetPath` (tree query API, not under `src/`).
Walks the path; intermediate table arrays are entered at their last element;
the final entry is returned with `tomlValue` wrappers unwrapped (a wrapped nil
payload reads back as absent, matching the Go nil-interface return). -/
def getPath : Tree → List String → Option GNode
  | t, [] => some (.gTree t)
  | Tree.mk vs, [k] =>
      match lookupV vs k with
      | some (Node.table t) => some (.gTree t)
      | some (Node.tableArray ts) => some (.gTreeList ts)
      | some (Node.value GoValue.nilv) => none
      | some (Node.value v) => some (.gValue v)
      | none => none
  | Tree.mk vs, seg :: rest =>
      match lookupV vs seg with
      | some (Node.table t) => getPath t rest
      | some (Node.tableArray ts) =>
          match ts.getLast? with
          | some last => getPath last rest
          | none => none
      | _ => none

/-- Replace the last element of a list (helper for updates through the
last element of a table array). -/
def replaceLast : List Tree → Tree → List Tree
  | [], _ => []
  | [_], t => [t]
  | x :: xs, t => x :: replaceLast xs t

/-- Write `values[key] := n` in the sub-tree reached by walking `path` from
`t`, entering table arrays at their last element — the functional rendering of
the Go write through the `assignTree` pointer saved by `enterAssign` (which
resolves exactly this path).  If the path no longer resolves (impossible once
`enterAssign` has succeeded) the tree is left unchanged. -/
def writeAt : Tree → List String → String → Node → Tree
  | Tree.mk vs, [], k, n => Tree.mk (setValues vs k n)
  | Tree.mk vs, seg :: rest, k, n =>
      match lookupV vs seg with
      | some (Node.table t) =>
          Tree.mk (setValues vs seg (Node.table (writeAt t rest k n)))
      | some (Node.tableArray ts) =>
          match ts.getLast? with
          | some last =>
              Tree.mk (setValues vs seg (Node.tableArray (replaceLast ts (writeAt last rest k n))))
          | none => Tree.mk vs
      | _ => Tree.mk vs

/-- Modelled from the spec: `Tree.SetPath` (tree mutation API, not under
`src/`).  Creates missing intermediate tables, enters table arrays at their
last element, and stores the entry at the final segment. -/
def setPath : Tree → List String → Node → Tree
  | t, [], _ => t
  | Tree.mk vs, [k], n => Tree.mk (setValues vs k n)
  | Tree.mk vs, seg :: rest, n =>
      match lookupV vs seg with
      | some (Node.table t) =>
          Tree.mk (setValues vs seg (Node.table (setPath t rest n)))
      | some (Node.tableArray ts) =>
          match ts.getLast? with
          | some last =>
              Tree.mk (setValues vs seg (Node.tableArray (replaceLast ts (setPath last rest n))))
          | none => Tree.mk vs
      | some (Node.value _) => Tree.mk vs
      | none =>
          Tree.mk (setValues vs seg (Node.table (setPath (Tree.mk []) rest n)))

/-- Modelled from the spec: `Tree.createSubTree` (tree mutation API, not under
`src/`).  Resolves/creates the chain of tables named by the path; a segment
holding a plain value is a structural error; creations made before the error
point persist (the Go version mutates in place). -/
def createSubTree : Tree → List String → Tree × Option PErr
  | t, [] => (t, none)
  | Tree.mk vs, seg :: rest =>
      match lookupV vs seg with
      | some (Node.table t) =>
          let r := createSubTree t rest
          (Tree.mk (setValues vs seg (Node.table r.1)), r.2)
      | some (Node.tableArray ts) =>
          match ts.getLast? with
          | some last =>
              let r := createSubTree last rest
              (Tree.mk (setValues vs seg (Node.tableArray (replaceLast ts r.1))), r.2)
          | none => (Tree.mk vs, some PErr.unknownTableType)
      | some (Node.value _) => (Tree.mk vs, some PErr.unknownTableType)
      | none =>
          let r := createSubTree (Tree.mk []) rest
          (Tree.mk (setValues vs seg (Node.table r.1)), r.2)

/-- Modelled from the spec: `Tree.Set` on a single key (used by the inline
table loop); non-table values are wrapped in a `tomlValue`, `*Tree` and
`[]*Tree` are stored directly. -/
def treeSet (t : Tree) (k : String) (v : Option GoValue) : Tree :=
  let node : Node :=
    match v with
    | some (GoValue.tree sub) => Node.table sub
    | some (GoValue.treeList ts) => Node.tableArray ts
    | some gv => Node.value gv
    | none => Node.value GoValue.nilv
  match t with
  | Tree.mk vs => Tree.mk (setValues vs k node)

/-- `listIsPrefix p s`: the character list `p` is a prefix of `s`
(`strings.HasPrefix` on the underlying lists). -/
def listIsPrefix : List Char → List Char → Bool
  | [], _ => true
  | _ :: _, [] => false
  | a :: as, b :: bs => a = b && listIsPrefix as bs

/-- `strings.HasPrefix s p`. -/
def strStartsWith (s p : String) : Bool :=
  listIsPrefix p.data s.data

/-- `strings.Join l "."`. -/
def joinDots : List String → String
  | [] => ""
  | [s] => s
  | s :: rest => s ++ "." ++ joinDots rest

/-- Split a character list at each dot. -/
def splitSegs : List Char → List Char → List String
  | [], acc => [String.mk acc.reverse]
  | '.' :: rest, acc => String.mk acc.reverse :: splitSegs rest []
  | c :: rest, acc => splitSegs rest (c :: acc)

/-- Modelled from the spec: `parseKey` (key-parsing file, not under `src/`)
decomposes a dotted key into its path segments, rejecting an empty key. -/
def parseKey (s : String) : Except PErr (List String) :=
  if s.data = [] then .error .invalidKey else .ok (splitSegs s.data [])

/-- The seen-table-keys pruning loop of `enterGroupArray`: drops keys that are
children of the declared array key (text beginning with the array key plus a
dot) and tracks, via `found`, whether the last retained key equals the array
key (exactly the source's loop-carried flag). -/
def pruneSeen (pfx key : String) : List String → Bool → List String × Bool
  | [], found => ([], found)
  | t :: rest, found =>
      if strStartsWith t pfx = true then pruneSeen pfx key rest found
      else
        (t :: (pruneSeen pfx key rest (t = key)).1, (pruneSeen pfx key rest (t = key)).2)

/-- The builder state (`treeBuilder`).  The Go pointer `assignTree` is
represented by `assignPath`, the table path from which `enterAssign` resolved
it; writes through the pointer become `writeAt` on that path. -/
structure Builder where
  tree : Tree
  currentTable : List String
  seenTableKeys : List String
  assignKeyVal : String
  assignPath : List String
  inArray : Bool
  array : List GoValue
  arrayType : Option GoType
  inlineTableTree : Tree

/-- `makeTreeBuilder`: fresh builder with an empty root tree. -/
def makeTreeBuilder : Builder :=
  { tree := Tree.mk []
    currentTable := []
    seenTableKeys := []
    assignKeyVal := ""
    assignPath := []
    inArray := false
    array := []
    arrayType := none
    inlineTableTree := Tree.mk [] }

/-- Tail of `enterGroupArray` after the destination array has been determined:
append a fresh tree, store the array at the path, prune the seen keys and
re-register the array key when the last retained seen key differs from it. -/
def groupArrayCont (key : String) (keys : List String) (b : Builder)
    (t1 : Tree) (array : List Tree) : Builder :=
  let array2 := array ++ [Tree.mk []]
  let t2 := setPath t1 keys (Node.tableArray array2)
  let pr := pruneSeen (key ++ ".") key b.seenTableKeys false
  let seen3 := if pr.2 then pr.1 else pr.1 ++ [key]
  { b with tree := t2, currentTable := keys, seenTableKeys := seen3 }

/-- `treeBuilder.enterGroupArray`: create the parent chain (the source
discards `createSubTree`'s error here, keeping any partial creations), then
get-or-create the table array at the full path and append a fresh element;
errors when the path already holds something other than a table array. -/
def enterGroupArray (key : String) (keys : List String) (b : Builder) :
    Except PErr Builder :=
  let t1 := (createSubTree b.tree keys.dropLast).1
  match getPath t1 keys with
  | none => .ok (groupArrayCont key keys b t1 [])
  | some (GNode.gTreeList ts) => .ok (groupArrayCont key keys b t1 ts)
  | some _ => .error (.keyNotTableArray key)

/-- `treeBuilder.enterGroup`: reject a key already declared as a table, record
it as seen, create the table chain and make it the current table. -/
def enterGroup (key : String) (keys : List String) (b : Builder) :
    Except PErr Builder :=
  if key ∈ b.seenTableKeys then .error .duplicatedTables
  else
    let seen2 := b.seenTableKeys ++ [key]
    match createSubTree b.tree keys with
    | (_, some e) => .error e
    | (t2, none) =>
        .ok { b with seenTableKeys := seen2, tree := t2, currentTable := keys }

/-- `treeBuilder.enterAssign`: resolve the current table (entering a table
array at its last element), then run the duplicate-key check and record the
pending assignment.  NOTE (faithful to the source): the pending key is taken
from the stale `b.assignKeyVal` field, not from the `key` parameter — the
source line reads `keyVals := []string\x7bb.assignKeyVal\x7d` and never uses
`key`. -/
def enterAssign (_key : String) (b : Builder) : Except PErr Builder :=
  let tableKey := b.currentTable
  let target? : Option Tree :=
    match getPath b.tree tableKey with
    | some (GNode.gTreeList ts) => ts.getLast?
    | some (GNode.gTree t) => some t
    | _ => none
  match target? with
  | none => .error .unknownTableType
  | some target =>
      let keyVal := b.assignKeyVal
      if (getPath target [keyVal]).isSome then
        .error (.keyDefinedTwice (joinDots (tableKey ++ [keyVal])))
      else
        .ok { b with assignKeyVal := keyVal, assignPath := tableKey }

/-- `treeBuilder.foundValue`: in array-accumulation mode, fix the element type
from the first element and reject any later element of a different type, then
append; otherwise complete the pending assignment, wrapping non-table values
in a `tomlValue`. -/
def foundValue (v : GoValue) (b : Builder) : Except PErr Builder :=
  if b.inArray then
    let at' : Option GoType :=
      match b.arrayType with
      | none => typeOf v
      | some t => some t
    if typeOf v ≠ at' then .error .mixedTypes
    else .ok { b with arrayType := at', array := b.array ++ [v] }
  else
    let toInsert : Node :=
      match v with
      | GoValue.tree t => Node.table t
      | GoValue.treeList ts => Node.tableArray ts
      | gv => Node.value gv
    .ok { b with tree := writeAt b.tree b.assignPath b.assignKeyVal toInsert }

/-- `treeBuilder.enterArray`: reset the accumulation buffer and enter array
mode. -/
def enterArray (b : Builder) : Builder :=
  { b with array := [], arrayType := none, inArray := true }

/-- `treeBuilder.exitArray`: when every accumulated element is a `*Tree`, the
array is reified as a `[]*Tree` (table array) — and the source returns early
there, leaving `inArray` set; otherwise the buffer is stored as a plain array
value and `inArray` is cleared. -/
def exitArray (b : Builder) : Builder :=
  if b.arrayType = some GoType.tTreePtr then
    let n := Node.tableArray (b.array.map asTree)
    { b with tree := writeAt b.tree b.assignPath b.assignKeyVal n }
  else
    let n := Node.value (GoValue.arr b.array)
    { b with tree := writeAt b.tree b.assignPath b.assignKeyVal n, inArray := false }

/-- `treeBuilder.enterInlineTable`: start a fresh inline-table tree. -/
def enterInlineTable (b : Builder) : Builder :=
  { b with inlineTableTree := Tree.mk [] }

/-- A decimal digit (the regexp class of a backslash-d). -/
def isDigitCh (c : Char) : Bool :=
  '0' ≤ c && c ≤ '9'

/-- A lowercase hexadecimal digit (the regexp class `[0-9a-f]`). -/
def isHexLowerCh (c : Char) : Bool :=
  isDigitCh c || ('a' ≤ c && c ≤ 'f')

/-- Scan for an adjacent pair in which an underscore touches a character that
is not a `good` digit — the `([^d]_|_[^d])` alternatives of the underscore
regexps. -/
def badPairScan (good : Char → Bool) : List Char → Bool
  | [] => false
  | [_] => false
  | a :: b :: rest =>
      (b = '_' && !good a) || (a = '_' && !good b) || badPairScan (good) (b :: rest)

/-- `numberUnderscoreInvalidRegexp.MatchString`: an underscore at either end of
the literal, or adjacent to a non-digit. -/
def numberContainsInvalidUnderscore (s : String) : Bool :=
  let cs := s.data
  (match cs with | c :: _ => c = '_' | [] => false)
  || (match cs.getLast? with | some l => l = '_' | none => false)
  || badPairScan isDigitCh cs

/-- `hexNumberUnderscoreInvalidRegexp.MatchString`: additionally rejects a
literal beginning `0x_`, and the digit class is `[0-9a-f]` (lowercase only). -/
def hexNumberContainsInvalidUnderscore (s : String) : Bool :=
  let cs := s.data
  (match cs with | '0' :: 'x' :: '_' :: _ => true | _ => false)
  || (match cs with | c :: _ => c = '_' | [] => false)
  || (match cs.getLast? with | some l => l = '_' | none => false)
  || badPairScan isHexLowerCh cs

/-- `cleanupNumberToken`: strip every underscore. -/
def cleanupNumberToken (value : String) : String :=
  String.mk (value.data.filter (fun c => c ≠ '_'))

/-- Value of one digit character under Go's `strconv` conventions. -/
def digitVal (c : Char) : Option Nat :=
  if '0' ≤ c && c ≤ '9' then some (c.toNat - '0'.toNat)
  else if 'a' ≤ c && c ≤ 'z' then some (c.toNat - 'a'.toNat + 10)
  else if 'A' ≤ c && c ≤ 'Z' then some (c.toNat - 'A'.toNat + 10)
  else none

/-- Accumulate the digits of a literal in the given base; any character whose
digit value is undefined or not below the base fails. -/
def digitsVal (base : Nat) : List Char → Nat → Option Nat
  | [], acc => some acc
  | c :: rest, acc =>
      match digitVal c with
      | some d => if d < base then digitsVal base rest (acc * base + d) else none
      | none => none

/-- Modelled from the Go standard library: `strconv.ParseInt(s, base, 64)`
with an explicit base — optional sign, at least one digit, digits interpreted
in the base, and a signed 64-bit range check (out-of-range is an error, which
the parser turns into a raise). -/
def parseIntGo (s : String) (base : Nat) : Option Int :=
  let p : Bool × List Char :=
    match s.data with
    | '-' :: rest => (true, rest)
    | '+' :: rest => (false, rest)
    | cs => (false, cs)
  match p.2 with
  | [] => none
  | _ =>
      match digitsVal base p.2 0 with
      | none => none
      | some n =>
          let v : Int := if p.1 then -(n : Int) else (n : Int)
          if -9223372036854775808 ≤ v ∧ v ≤ 9223372036854775807 then some v else none

/-- The `tokenInteger` branch of `parseRvalue`: clean the literal, then—when
the cleaned literal is at least three characters and starts with `0`—dispatch
on the base prefix character (`x`/`o`/`b`, any other second character being the
lexer-prevented `invalid base` panic), validating underscore placement on the
raw literal with the hex or plain rule as the source does; otherwise validate
with the plain rule and parse base-10. -/
def parseIntegerToken (raw : String) : Except PErr Int :=
  let cleanedVal := cleanupNumberToken raw
  match cleanedVal.data with
  | '0' :: c2 :: c3 :: restCs =>
      let tl := String.mk (c3 :: restCs)
      if c2 = 'x' then
        if hexNumberContainsInvalidUnderscore raw then .error .invalidUnderscoreHex
        else
          match parseIntGo tl 16 with
          | some v => .ok v
          | none => .error .intParseFailure
      else if c2 = 'o' then
        if numberContainsInvalidUnderscore raw then .error .invalidUnderscore
        else
          match parseIntGo tl 8 with
          | some v => .ok v
          | none => .error .intParseFailure
      else if c2 = 'b' then
        if numberContainsInvalidUnderscore raw then .error .invalidUnderscore
        else
          match parseIntGo tl 2 with
          | some v => .ok v
          | none => .error .intParseFailure
      else .error .invalidBase
  | _ =>
      if numberContainsInvalidUnderscore raw then .error .invalidUnderscore
      else
        match parseIntGo cleanedVal 10 with
        | some v => .ok v
        | none => .error .intParseFailure

/-- `tomlParser.assume`: consume one token of the required kind; anything else
(including stream exhaustion, a nil-token panic in the source) is an error. -/
def assumeTok (want : TokenType) : List Token → Except PErr (List Token)
  | [] => .error (.wasExpecting want)
  | tok :: rest => if tok.typ = want then .ok rest else .error (.wasExpecting want)

mutual
/-- `tomlParser.parseRvalue`: consume one right-hand-side value, reporting each
successfully parsed literal to the builder through `foundValue`; `[` delegates
to the array loop, `{` to the inline-table loop (whose resulting tree is
returned but not reported).  Returns the Go return value (`none` models the
nil returned for arrays). -/
def parseRvalue : Nat → List Token → Builder →
    Except PErr (Option GoValue × List Token × Builder)
  | 0, _, _ => .error .outOfFuel
  | _ + 1, [], _ => .error .expectingValue
  | f + 1, tok :: rest, b =>
      match tok.typ with
      | .eof => .error .expectingValue
      | .tString => do
          let b2 ← foundValue (GoValue.str tok.val) b
          .ok (some (GoValue.str tok.val), rest, b2)
      | .tTrue => do
          let b2 ← foundValue (GoValue.boolean true) b
          .ok (some (GoValue.boolean true), rest, b2)
      | .tFalse => do
          let b2 ← foundValue (GoValue.boolean false) b
          .ok (some (GoValue.boolean false), rest, b2)
      | .integer => do
          let v ← parseIntegerToken tok.val
          let b2 ← foundValue (GoValue.int64 v) b
          .ok (some (GoValue.int64 v), rest, b2)
      | .leftBracket => do
          let r ← parseArrayLoop f rest (enterArray b)
          .ok (none, r.1, r.2)
      | .leftCurlyBrace => do
          let r ← parseInlineTableLoop f rest (enterInlineTable b) none
          .ok (some r.1, r.2.1, r.2.2)
      | .equal => .error .multipleEquals
      | .tokenError => .error .lexerError
      | _ => .error .neverReached

/-- The loop of `tomlParser.parseArray` (the `enterArray` call having been
made by the caller): elements separated by commas, a trailing comma permitted,
`]` closing the array through `exitArray`. -/
def parseArrayLoop : Nat → List Token → Builder →
    Except PErr (List Token × Builder)
  | 0, _, _ => .error .outOfFuel
  | _ + 1, [], _ => .error .unterminatedArray
  | f + 1, tok :: rest, b =>
      match tok.typ with
      | .eof => .error .unterminatedArray
      | .rightBracket => .ok (rest, exitArray b)
      | _ => do
          let r ← parseRvalue f (tok :: rest) b
          match r.2.1 with
          | [] => .error .unterminatedArray
          | tok2 :: rest2 =>
              match tok2.typ with
              | .eof => .error .unterminatedArray
              | .rightBracket => parseArrayLoop f (tok2 :: rest2) r.2.2
              | .comma => parseArrayLoop f rest2 r.2.2
              | _ => .error .missingComma

/-- The loop of `tomlParser.parseInlineTable` (after the caller's
`enterInlineTable`).  The source's local `tree` is unbound in the file as
given; it resolves to the builder's `inlineTableTree` field, the fresh tree
installed by `enterInlineTable`, and every `tree.Set` updates that field.  The
`prev` argument carries the kind of the token peeked at the previous
iteration (the source's `previous`). -/
def parseInlineTableLoop : Nat → List Token → Builder → Option TokenType →
    Except PErr (GoValue × List Token × Builder)
  | 0, _, _, _ => .error .outOfFuel
  | _ + 1, [], _, _ => .error .unterminatedInlineTable
  | f + 1, follow :: rest, b, prev =>
      match follow.typ with
      | .eof => .error .unterminatedInlineTable
      | .rightCurlyBrace =>
          if prev = some TokenType.comma then .error .trailingCommaInlineTable
          else .ok (GoValue.tree b.inlineTableTree, rest, b)
      | .key =>
          if prev ≠ some TokenType.comma && prev ≠ none then
            .error .commaExpectedInlineTable
          else do
            let rest2 ← assumeTok .equal rest
            let r ← parseRvalue f rest2 b
            let b3 := r.2.2
            let b4 := { b3 with inlineTableTree := treeSet b3.inlineTableTree follow.val r.1 }
            parseInlineTableLoop f r.2.1 b4 (some follow.typ)
      | .comma =>
          if prev = none then .error .leadingCommaInlineTable
          else if prev = some TokenType.comma then .error .doubleCommaInlineTable
          else parseInlineTableLoop f rest b (some TokenType.comma)
      | _ => .error .unexpectedInlineTableToken
end

/-- `tomlParser.parseGroupArray`: consume `[[`, a table-array key (split into
segments), call `enterGroupArray`, and require `]]`. -/
def parseGroupArrayStep : List Token → Builder → Except PErr (List Token × Builder)
  | [], _ => .error .unexpectedEnd
  | _ :: rest, b =>
      match rest with
      | [] => .error .unexpectedEnd
      | keyTok :: rest2 =>
          if keyTok.typ ≠ TokenType.keyGroupArray then .error .unexpectedToken
          else do
            let keys ← parseKey keyTok.val
            let b2 ← enterGroupArray keyTok.val keys b
            let rest3 ← assumeTok .doubleRightBracket rest2
            .ok (rest3, b2)

/-- `tomlParser.parseGroup`: consume `[`, a table key (split into segments),
call `enterGroup`, and require `]`. -/
def parseGroupStep : List Token → Builder → Except PErr (List Token × Builder)
  | [], _ => .error .unexpectedEnd
  | _ :: rest, b =>
      match rest with
      | [] => .error .unexpectedEnd
      | keyTok :: rest2 =>
          if keyTok.typ ≠ TokenType.keyGroup then .error .unexpectedToken
          else do
            let keys ← parseKey keyTok.val
            let b2 ← enterGroup keyTok.val keys b
            let rest3 ← assumeTok .rightBracket rest2
            .ok (rest3, b2)

/-- `tomlParser.parseAssign`: consume the key token and `=`, call
`enterAssign` with the key text, then parse one right-hand-side value. -/
def parseAssignStep (f : Nat) : List Token → Builder → Except PErr (List Token × Builder)
  | [], _ => .error .unexpectedEnd
  | keyTok :: rest, b => do
      let rest2 ← assumeTok .equal rest
      let b2 ← enterAssign keyTok.val b
      let r ← parseRvalue f rest2 b2
      .ok (r.2.1, r.2.2)

/-- `tomlParser.parseStart` iterated by `run`: dispatch on the next token kind
until the stream (or an `eof` token) ends the parse. -/
def parseStart : Nat → List Token → Builder → Except PErr Builder
  | 0, _, _ => .error .outOfFuel
  | _ + 1, [], b => .ok b
  | f + 1, tok :: rest, b =>
      match tok.typ with
      | .doubleLeftBracket => do
          let r ← parseGroupArrayStep (tok :: rest) b
          parseStart f r.1 r.2
      | .leftBracket => do
          let r ← parseGroupStep (tok :: rest) b
          parseStart f r.1 r.2
      | .key => do
          let r ← parseAssignStep f (tok :: rest) b
          parseStart f r.1 r.2
      | .eof => .ok b
      | _ => .error .unexpectedToken

/-- `parseToml`: run the state machine over the token flow with a fresh
builder and return the built tree.  The fuel exceeds any possible number of
state transitions for the given stream. -/
def parseToml (flow : List Token) : Except PErr Tree := do
  let b ← parseStart (4 * flow.length + 16) flow makeTreeBuilder
  .ok b.tree

/-- The builder operations as a single alphabet, for stating invariants that
hold across every builder mutation. -/
inductive BOp where
  | group (key : String) (keys : List String)
  | groupArray (key : String) (keys : List String)
  | assign (key : String)
  | found (v : GoValue)
  | array
  | arrayExit
  | inlineTable

/-- Apply one builder operation (the pure ones lifted into `Except`). -/
def applyBOp : BOp → Builder → Except PErr Builder
  | .group k ks, b => enterGroup k ks b
  | .groupArray k ks, b => enterGroupArray k ks b
  | .assign k, b => enterAssign k b
  | .found v, b => foundValue v b
  | .array, b => .ok (enterArray b)
  | .arrayExit, b => .ok (exitArray b)
  | .inlineTable, b => .ok (enterInlineTable b)

/-- Token builder. -/
def tk (t : TokenType) (v : String) : Token := ⟨t, v⟩

/-- Token stream of the document `title = "x"`. -/
def docTitle : List Token :=
  [tk .key "title", tk .equal "=", tk .tString "x", tk .eof ""]

/-- Token stream of `a = 1` followed by `a = 2`. -/
def docDupKey : List Token :=
  [tk .key "a", tk .equal "=", tk .integer "1",
   tk .key "a", tk .equal "=", tk .integer "2", tk .eof ""]

/-- Token stream of `a.b = 1` followed by `a.c = 2`. -/
def docDottedKeys : List Token :=
  [tk .key "a.b", tk .equal "=", tk .integer "1",
   tk .key "a.c", tk .equal "=", tk .integer "2", tk .eof ""]

/-- Token stream of `[a]` declared twice. -/
def docGroupTwice : List Token :=
  [tk .leftBracket "[", tk .keyGroup "a", tk .rightBracket "]",
   tk .leftBracket "[", tk .keyGroup "a", tk .rightBracket "]", tk .eof ""]

/-- Token stream of `[[a]]` declared twice. -/
def docGroupArrayTwice : List Token :=
  [tk .doubleLeftBracket "[[", tk .keyGroupArray "a", tk .doubleRightBracket "]]",
   tk .doubleLeftBracket "[[", tk .keyGroupArray "a", tk .doubleRightBracket "]]", tk .eof ""]

/-- Token stream of `x = [1, "a"]`. -/
def docMixedArray : List Token :=
  [tk .key "x", tk .equal "=", tk .leftBracket "[", tk .integer "1",
   tk .comma ",", tk .tString "a", tk .rightBracket "]", tk .eof ""]

/-- Token stream of `x = [1, 2]`. -/
def docHomogArray : List Token :=
  [tk .key "x", tk .equal "=", tk .leftBracket "[", tk .integer "1",
   tk .comma ",", tk .integer "2", tk .rightBracket "]", tk .eof ""]

/-- Token stream of `x = [\x7ba = 1\x7d, \x7ba = 2\x7d]`. -/
def docInlineTableArray : List Token :=
  [tk .key "x", tk .equal "=", tk .leftBracket "[",
   tk .leftCurlyBrace "", tk .key "a", tk .equal "=", tk .integer "1", tk .rightCurlyBrace "",
   tk .comma ",",
   tk .leftCurlyBrace "", tk .key "a", tk .equal "=", tk .integer "2", tk .rightCurlyBrace "",
   tk .rightBracket "]", tk .eof ""]

/-- Token stream of `[[x]] a = 1 [[x]] a = 2`. -/
def docTableArrayDecl : List Token :=
  [tk .doubleLeftBracket "[[", tk .keyGroupArray "x", tk .doubleRightBracket "]]",
   tk .key "a", tk .equal "=", tk .integer "1",
   tk .doubleLeftBracket "[[", tk .keyGroupArray "x", tk .doubleRightBracket "]]",
   tk .key "a", tk .equal "=", tk .integer "2", tk .eof ""]

/-- Token stream of `t = \x7ba = 1, b = 2\x7d`. -/
def docInlineTable : List Token :=
  [tk .key "t", tk .equal "=", tk .leftCurlyBrace "",
   tk .key "a", tk .equal "=", tk .integer "1", tk .comma ",",
   tk .key "b", tk .equal "=", tk .integer "2",
   tk .rightCurlyBrace "", tk .eof ""]

/-- Token stream of `x = [1, 2,]`. -/
def docTrailingComma : List Token :=
  [tk .key "x", tk .equal "=", tk .leftBracket "[", tk .integer "1",
   tk .comma ",", tk .integer "2", tk .comma ",", tk .rightBracket "]", tk .eof ""]

/-- Token stream of `x = [1,,2]`. -/
def docDoubleComma : List Token :=
  [tk .key "x", tk .equal "=", tk .leftBracket "[", tk .integer "1",
   tk .comma ",", tk .comma ",", tk .integer "2", tk .rightBracket "]", tk .eof ""]

/-- Token stream of `x = [[1, 2], [3, 4]]`. -/
def docNestedArrays : List Token :=
  [tk .key "x", tk .equal "=", tk .leftBracket "[",
   tk .leftBracket "[", tk .integer "1", tk .comma ",", tk .integer "2", tk .rightBracket "]",
   tk .comma ",",
   tk .leftBracket "[", tk .integer "3", tk .comma ",", tk .integer "4", tk .rightBracket "]",
   tk .rightBracket "]", tk .eof ""]

/-- Is a dynamic value itself an array value? -/
def goValueIsArr : GoValue → Bool
  | .arr _ => true
  | _ => false

/-- Does a stored entry hold an array one of whose elements is itself an
array? -/
def nodeHasNestedArr : Node → Bool
  | Node.value (GoValue.arr xs) => xs.any goValueIsArr
  | _ => false

/-- Does any top-level entry of the tree hold an array containing an array? -/
def treeHasNestedArray : Tree → Bool
  | Tree.mk vs => vs.any (fun p => nodeHasNestedArr p.2)

/-- A builder that has already seen the table key `a`. -/
def bSeenA : Builder := { makeTreeBuilder with seenTableKeys := ["a"] }

/-- A builder whose tree already holds a one-element table array at `a`. -/
def bTableArrA : Builder :=
  { makeTreeBuilder with tree := Tree.mk [("a", Node.tableArray [Tree.mk []])] }

/-- A builder in array-accumulation mode whose buffer holds one tree and whose
element type is `*Tree` (the state reached after accumulating one inline
table, had inline tables delivered their trees to `foundValue`). -/
def bTreeBuf : Builder :=
  { makeTreeBuilder with
    inArray := true
    array := [GoValue.tree (Tree.mk [])]
    arrayType := some GoType.tTreePtr }

/-- A builder in array-accumulation mode with element type fixed to `int64`
and one element accumulated. -/
def bIntArray : Builder :=
  { makeTreeBuilder with
    inArray := true
    array := [GoValue.int64 1]
    arrayType := some GoType.tInt64 }

/-- Writing a key always makes it readable. -/
theorem lookupV_setValues_self (vs : List (String × Node)) (k : String) (n : Node) :
    lookupV (setValues vs k n) k = some n := by
  induction vs with
  | nil => simp [setValues, lookupV]
  | cons p rest ih =>
      obtain ⟨k', n'⟩ := p
      by_cases h : k' = k
      · simp [setValues, h, lookupV]
      · simp [setValues, h, lookupV, ih]

/-- Every character of a prefix occurs in the full list. -/
theorem listIsPrefix_mem : ∀ (p s : List Char), listIsPrefix p s = true →
    ∀ c ∈ p, c ∈ s := by
  intro p
  induction p with
  | nil => intro s _ c hc; cases hc
  | cons a as ih =>
      intro s h c hc
      cases s with
      | nil => simp [listIsPrefix] at h
      | cons b bs =>
          simp only [listIsPrefix, Bool.and_eq_true, decide_eq_true_eq] at h
          cases hc with
          | head => rw [h.1]; exact List.mem_cons_self _ _
          | tail _ hc2 => exact List.mem_cons_of_mem _ (ih bs h.2 c hc2)

/-- A dot-free string never starts with `p ++ "."`. -/
theorem strStartsWith_append_dot (k p : String) (hk : '.' ∉ k.data) :
    strStartsWith k (p ++ ".") = false := by
  cases hb : strStartsWith k (p ++ ".") with
  | false => rfl
  | true =>
      exfalso
      have hmem : '.' ∈ (p ++ ".").data := by
        obtain ⟨pd⟩ := p
        show '.' ∈ pd ++ ['.']
        exact List.mem_append_right _ (List.mem_singleton.mpr rfl)
      exact hk (listIsPrefix_mem _ _ hb '.' hmem)

/-- Pruning removes only keys starting with the pruned text. -/
theorem mem_pruneSeen (pfx key k : String) (hk : strStartsWith k pfx = false) :
    ∀ (l : List String) (f : Bool), k ∈ l → k ∈ (pruneSeen pfx key l f).1 := by
  intro l
  induction l with
  | nil => intro f h; cases h
  | cons t rest ih =>
      intro f h
      by_cases ht : strStartsWith t pfx = true
      · simp only [pruneSeen, if_pos ht]
        cases h with
        | head => rw [ht] at hk; cases hk
        | tail _ h2 => exact ih f h2
      · simp only [pruneSeen, if_neg ht]
        cases h with
        | head => exact List.mem_cons_self _ _
        | tail _ h2 => exact List.mem_cons_of_mem _ (ih (t = key) h2)

/-- No builder operation ever removes a dot-free key from the seen-table-keys
list: `enterGroup` and `enterGroupArray` only append it or keep it, and the
pruning in `enterGroupArray` only removes keys containing a dot. -/
theorem seenKeys_persist (op : BOp) (b b' : Builder) (k : String)
    (h : applyBOp op b = .ok b') (hk : k ∈ b.seenTableKeys)
    (hd : '.' ∉ k.data) : k ∈ b'.seenTableKeys := by
  cases op with
  | group key keys =>
      simp only [applyBOp, enterGroup] at h
      split at h
      · cases h
      · split at h
        · cases h
        · cases h
          exact List.mem_append_left _ hk
  | groupArray key keys =>
      simp only [applyBOp, enterGroupArray] at h
      have hpr : k ∈ (pruneSeen (key ++ ".") key b.seenTableKeys false).1 :=
        mem_pruneSeen _ _ _ (strStartsWith_append_dot k key hd) _ _ hk
      split at h
      · cases h
        simp only [groupArrayCont]
        split
        · exact hpr
        · exact List.mem_append_left _ hpr
      · cases h
        simp only [groupArrayCont]
        split
        · exact hpr
        · exact List.mem_append_left _ hpr
      · cases h
  | assign key =>
      simp only [applyBOp, enterAssign] at h
      split at h
      · cases h
      · split at h
        · cases h
        · cases h
          exact hk
  | found v =>
      simp only [applyBOp, foundValue] at h
      split at h
      · split at h
        · cases h
        · cases h
          exact hk
      · cases h
        exact hk
  | array =>
      cases h
      exact hk
  | arrayExit =>
      cases h
      simp only [exitArray]
      split
      · exact hk
      · exact hk
  | inlineTable =>
      cases h
      exact hk

/-- C1 (code evaluated at the failing input): parsing the token stream of
`title = "x"` succeeds, but the value is stored under the stale pending key
(the empty string), not under the key token `title` — `enterAssign` never
uses its `key` parameter. -/
theorem c1_title_value_stored_under_stale_key :
    parseToml docTitle = .ok (Tree.mk [("", Node.value (GoValue.str "x"))]) := by
  rfl

/-- C2 (code evaluated at the failing input): `a = 1` then `a = 2` fails with
the duplicate-key error, but so does `a.b = 1` then `a.c = 2` — because
`enterAssign` reuses the stale pending key, every second assignment of a
parse collides with the first, and no nested table is ever produced. -/
theorem c2_every_second_assignment_collides :
    parseToml docDupKey = .error (PErr.keyDefinedTwice "")
    ∧ parseToml docDottedKeys = .error (PErr.keyDefinedTwice "") := by
  exact ⟨rfl, rfl⟩

/-- C3: once `[a]` has been declared, the dot-free key `a` stays in the
seen-table-keys list across every builder operation and any later `[a]`
fails with the duplicated-tables error, for every document; `[[a]]` appends a
fresh element to the table array at `a` wherever one exists; concretely,
`[a][a]` fails with duplicated-tables and `[[a]][[a]]` yields a two-element
table array in declaration order. -/
theorem c3_duplicate_table_vs_table_array_append :
    (∀ (keys : List String) (b : Builder), "a" ∈ b.seenTableKeys →
        enterGroup "a" keys b = .error PErr.duplicatedTables)
    ∧ (∀ (keys : List String) (b b' : Builder),
        enterGroup "a" keys b = .ok b' → "a" ∈ b'.seenTableKeys)
    ∧ (∀ (op : BOp) (b b' : Builder) (k : String), applyBOp op b = .ok b' →
        k ∈ b.seenTableKeys → '.' ∉ k.data → k ∈ b'.seenTableKeys)
    ∧ (∀ (b : Builder) (ts : List Tree),
        getPath b.tree ["a"] = some (GNode.gTreeList ts) →
        ∃ b', enterGroupArray "a" ["a"] b = .ok b'
          ∧ getPath b'.tree ["a"] = some (GNode.gTreeList (ts ++ [Tree.mk []])))
    ∧ parseToml docGroupTwice = .error PErr.duplicatedTables
    ∧ parseToml docGroupArrayTwice
        = .ok (Tree.mk [("a", Node.tableArray [Tree.mk [], Tree.mk []])]) := by
  refine ⟨?_, ?_, seenKeys_persist, ?_, rfl, rfl⟩
  · intro keys b hb
    simp only [enterGroup, if_pos hb]
  · intro keys b b' h
    simp only [enterGroup] at h
    split at h
    · cases h
    · split at h
      · cases h
      · cases h
        exact List.mem_append_right _ (List.mem_singleton.mpr rfl)
  · intro b ts h
    rcases hbt : b.tree with ⟨vs⟩
    rw [hbt] at h
    have hlk : lookupV vs "a" = some (Node.tableArray ts) := by
      simp only [getPath] at h
      split at h
      · cases h
      · cases h
        assumption
      · cases h
      · cases h
      · cases h
    refine ⟨groupArrayCont "a" ["a"] b (Tree.mk vs) ts, ?_, ?_⟩
    · simp only [enterGroupArray, hbt, List.dropLast, createSubTree]
      rw [show getPath (Tree.mk vs) ["a"] = some (GNode.gTreeList ts) from h]
    · simp only [groupArrayCont, setPath, hlk]
      simp only [getPath, lookupV_setValues_self]

theorem c3_witness :
    enterGroup "a" ["a"] bSeenA = .error PErr.duplicatedTables
    ∧ "a" ∈ (enterArray bSeenA).seenTableKeys
    ∧ (∃ b', enterGroupArray "a" ["a"] bTableArrA = .ok b'
        ∧ getPath b'.tree ["a"]
            = some (GNode.gTreeList ([Tree.mk []] ++ [Tree.mk []]))) := by
  refine ⟨?_, ?_, ?_⟩
  · exact c3_duplicate_table_vs_table_array_append.1 ["a"] bSeenA
      (List.mem_singleton.mpr rfl)
  · exact c3_duplicate_table_vs_table_array_append.2.2.1 BOp.array bSeenA
      (enterArray bSeenA) "a" rfl (List.mem_singleton.mpr rfl) (by decide)
  · exact c3_duplicate_table_vs_table_array_append.2.2.2.1 bTableArrA
      [Tree.mk []] rfl

/-- C4: in array-accumulation mode `foundValue` fixes the element type from
the first element, fails with the mixed-types error exactly when a later
element's type differs (at the moment that element is produced), and appends
otherwise; concretely, `x = [1, "a"]` fails with the mixed-types error while
`x = [1, 2]` parses. -/
theorem c4_array_homogeneity_incremental :
    (∀ (v : GoValue) (b : Builder) (t : GoType),
        b.inArray = true → b.arrayType = some t →
        (typeOf v ≠ some t → foundValue v b = .error PErr.mixedTypes)
        ∧ (typeOf v = some t →
            foundValue v b = .ok { b with array := b.array ++ [v] }))
    ∧ (∀ (v : GoValue) (b : Builder), b.inArray = true → b.arrayType = none →
        foundValue v b
          = .ok { b with arrayType := typeOf v, array := b.array ++ [v] })
    ∧ parseToml docMixedArray = .error PErr.mixedTypes
    ∧ parseToml docHomogArray
        = .ok (Tree.mk [("", Node.value (GoValue.arr [GoValue.int64 1, GoValue.int64 2]))]) := by
  refine ⟨?_, ?_, rfl, rfl⟩
  · intro v b t hin hat
    constructor
    · intro hne
      simp only [foundValue, hin, if_true, hat, if_pos hne]
    · intro heq
      simp only [foundValue, hin, if_true, hat]
      rw [if_neg (by simp [heq])]
  · intro v b hin hat
    simp only [foundValue, hin, if_true, hat]
    rw [if_neg (by simp)]

theorem c4_witness :
    foundValue (GoValue.str "s") bIntArray = .error PErr.mixedTypes
    ∧ foundValue (GoValue.int64 2) bIntArray
        = .ok { bIntArray with array := bIntArray.array ++ [GoValue.int64 2] }
    ∧ foundValue (GoValue.int64 1) (enterArray makeTreeBuilder)
        = .ok { enterArray makeTreeBuilder with
                  arrayType := typeOf (GoValue.int64 1)
                  array := (enterArray makeTreeBuilder).array ++ [GoValue.int64 1] } := by
  refine ⟨?_, ?_, ?_⟩
  · exact (c4_array_homogeneity_incremental.1 (GoValue.str "s") bIntArray
      GoType.tInt64 rfl rfl).1 (by decide)
  · exact (c4_array_homogeneity_incremental.1 (GoValue.int64 2) bIntArray
      GoType.tInt64 rfl rfl).2 rfl
  · exact c4_array_homogeneity_incremental.2.1 (GoValue.int64 1)
      (enterArray makeTreeBuilder) rfl rfl

/-- C5 (code evaluated at the failing input): `x = [\x7ba=1\x7d, \x7ba=2\x7d]`
does not produce the table-array shape — inside an array, the scalars of each
inline table are appended to the array buffer (via `foundValue`, since
`inArray` is still set) and the inline trees themselves are discarded, so the
result is a plain array `[1, 2]` under the stale empty key; the explicit
`[[x]]` declarations do produce a table array of the two one-entry trees. -/
theorem c5_inline_array_differs_from_table_array :
    parseToml docInlineTableArray
      = .ok (Tree.mk [("", Node.value (GoValue.arr [GoValue.int64 1, GoValue.int64 2]))])
    ∧ parseToml docTableArrayDecl
      = .ok (Tree.mk [("x", Node.tableArray
          [Tree.mk [("", Node.value (GoValue.int64 1))],
           Tree.mk [("", Node.value (GoValue.int64 2))]])]) := by
  exact ⟨rfl, rfl⟩

/-- C6 (code evaluated at the failing input): parsing `t = \x7ba = 1, b = 2\x7d`
succeeds but the inline table's tree never completes the pending assignment —
each member value is written straight through the pending outer assignment
(overwriting the previous one) and the inline tree returned by the loop is
discarded, leaving the root mapping the stale empty key to 2. -/
theorem c6_inline_table_tree_discarded :
    parseToml docInlineTable = .ok (Tree.mk [("", Node.value (GoValue.int64 2))]) := by
  rfl

/-- C7: an array with a trailing comma `[1, 2,]` parses to the two-element
array, while `[1,,2]` fails (the second comma reaches `parseRvalue`, whose
fall-through raise fires). -/
theorem c7_trailing_comma_ok_double_comma_fails :
    parseToml docTrailingComma
      = .ok (Tree.mk [("", Node.value (GoValue.arr [GoValue.int64 1, GoValue.int64 2]))])
    ∧ parseToml docDoubleComma = .error PErr.neverReached := by
  exact ⟨rfl, rfl⟩

/-- C8: integer literals — misplaced underscores `_100`, `100_`, `1__00` are
rejected; `1_000` parses to the separator-free value 1000; `0x1A`, `0b101`,
`0o17` parse in bases 16, 2, 8 to 26, 5, 15; plain literals parse as base-10
signed 64-bit integers (the maximal value parses, one past it fails). -/
theorem c8_integer_literal_parsing :
    parseIntegerToken "_100" = .error PErr.invalidUnderscore
    ∧ parseIntegerToken "100_" = .error PErr.invalidUnderscore
    ∧ parseIntegerToken "1__00" = .error PErr.invalidUnderscore
    ∧ parseIntegerToken "1_000" = .ok 1000
    ∧ parseIntegerToken "0x1A" = .ok 26
    ∧ parseIntegerToken "0b101" = .ok 5
    ∧ parseIntegerToken "0o17" = .ok 15
    ∧ parseIntegerToken "9223372036854775807" = .ok 9223372036854775807
    ∧ parseIntegerToken "9223372036854775808" = .error PErr.intParseFailure := by
  exact ⟨rfl, rfl, rfl, rfl, rfl, rfl, rfl, rfl, rfl⟩

/-- C9 counterexample: parsing `x = [[1,2],[3,4]]` succeeds but its result
holds no array-of-arrays anywhere — the claimed nested two-by-two structure
is absent (the single entry maps the stale empty key to the flat array
`[3, 4]`). -/
theorem c9_counterexample_no_nesting :
    parseToml docNestedArrays
      = .ok (Tree.mk [("", Node.value (GoValue.arr [GoValue.int64 3, GoValue.int64 4]))])
    ∧ treeHasNestedArray
        (Tree.mk [("", Node.value (GoValue.arr [GoValue.int64 3, GoValue.int64 4]))]) = false := by
  exact ⟨rfl, rfl⟩

/-- C9 amended: the builder keeps one flat accumulation buffer, so each inner
array's close stores the buffer at the pending key and the next inner array
resets it; parsing `x = [[1,2],[3,4]]` therefore succeeds with the final tree
mapping the (stale, empty) pending key to the flat array `[3, 4]`, not to a
nested structure. -/
theorem c9_flat_buffer_last_inner_array_wins :
    parseToml docNestedArrays
      = .ok (Tree.mk [("", Node.value (GoValue.arr [GoValue.int64 3, GoValue.int64 4]))]) := by
  rfl

/-- C10 (code evaluated at the failing input): after `exitArray` on a buffer
whose elements were all trees, the builder is still in array-accumulation
mode — `inArray` remains `true` (the table-array branch returns early), a
subsequent `foundValue` of a scalar hits the stale `*Tree` element type and
raises the mixed-types error, and a tree value is appended to the stale
buffer; in no case is the value stored at an assignment's key. -/
theorem c10_exitArray_keeps_array_mode :
    (exitArray bTreeBuf).inArray = true
    ∧ foundValue (GoValue.int64 5) (exitArray bTreeBuf) = .error PErr.mixedTypes
    ∧ foundValue (GoValue.tree (Tree.mk [])) (exitArray bTreeBuf)
        = .ok { exitArray bTreeBuf with
                  array := (exitArray bTreeBuf).array ++ [GoValue.tree (Tree.mk [])] } := by
  exact ⟨rfl, rfl, rfl⟩

end GoToml
